import Mathlib

/-!
Verification of the Vulkan texture cache (`src/xenia/gpu/vulkan/texture_cache.h`).

Only the class declaration (`texture_cache.h`) is present in the repository
snapshot; the member-function bodies live in `texture_cache.cc`, which is not
included.  Where a definition below embeds behaviour whose implementation is
missing, its doc comment starts with `Modelled from the spec:` and the
definition follows the specification's words (and the header's own comments)
for that member.  Structural facts (field layouts, the bit-packed swizzle
union, container types) are taken directly from the header.
-/

namespace XeniaTextureCache

/-- Identity-relevant fields of a guest texture descriptor.  Mirrors the
external `TextureInfo` consumed by the cache: base guest address,
width/height/depth, mip levels, pixel format, tiling mode, endianness. -/
structure TextureInfo where
  guest_address : Nat
  width : Nat
  height : Nat
  depth : Nat
  mip_levels : Nat
  format : Nat
  tiling : Nat
  endianness : Nat
deriving DecidableEq, Repr

/-- Modelled from the spec: `texture_cache.cc` (missing) computes "a 64-bit
content hash over the descriptor's identity-relevant fields".  We model the
hash as a concrete function of all identity-relevant fields, reduced
modulo 2^64. -/
def hashTextureInfo (ti : TextureInfo) : Nat :=
  (ti.guest_address + 31 * ti.width + 961 * ti.height + 29791 * ti.depth +
      923521 * ti.mip_levels + 28629151 * ti.format + 887503681 * ti.tiling +
      27512614111 * ti.endianness) % 2 ^ 64

/-- The keyed texture map `textures_` of the header
(`std::unordered_map<uint64_t, Texture*>`), embedded as an association list
from 64-bit hash keys to texture identifiers. -/
def TextureMap : Type := List (Nat × Nat)

/-- Modelled from the spec: `TextureCache::Lookup` (body in the missing
`texture_cache.cc`) "computes a 64-bit content hash over the descriptor's
identity-relevant fields and performs an exact-match lookup; returns null on
miss". -/
def Lookup (textures : TextureMap) (ti : TextureInfo) : Option Nat :=
  List.lookup (hashTextureInfo ti) textures

theorem lookup_eq_none_of_not_mem_keys (k : Nat) (l : List (Nat × Nat))
    (h : k ∉ l.map Prod.fst) : List.lookup k l = none := by
  induction l with
  | nil => rfl
  | cons p rest ih =>
    simp only [List.map_cons, List.mem_cons] at h
    push_neg at h
    rw [List.lookup_cons]
    have hk : (k == p.1) = false := by
      simp [h.1]
    rw [hk]
    exact ih h.2

/-- C1: two texture descriptors with identical hashed (identity-relevant)
fields produce the same `Lookup` result, and a descriptor whose 64-bit hash
has no exact match among the keys of the texture map looks up to `none`. -/
theorem Lookup_hash_key_equivalence (textures : TextureMap) (A B : TextureInfo)
    (hfields : A.guest_address = B.guest_address ∧ A.width = B.width ∧
      A.height = B.height ∧ A.depth = B.depth ∧ A.mip_levels = B.mip_levels ∧
      A.format = B.format ∧ A.tiling = B.tiling ∧ A.endianness = B.endianness) :
    Lookup textures A = Lookup textures B ∧
      ∀ C : TextureInfo, hashTextureInfo C ∉ textures.map Prod.fst →
        Lookup textures C = none := by
  constructor
  · have hAB : A = B := by
      obtain ⟨h1, h2, h3, h4, h5, h6, h7, h8⟩ := hfields
      cases A; cases B
      simp_all
    rw [hAB]
  · intro C hC
    exact lookup_eq_none_of_not_mem_keys _ _ hC

/-- Witness for C1 at concrete inputs: two descriptors with identical fields
over a one-entry map, plus a missing hash. -/
theorem Lookup_hash_key_equivalence_witness :
    Lookup [(5, 77)] ⟨1, 2, 3, 1, 1, 4, 0, 1⟩ =
      Lookup [(5, 77)] ⟨1, 2, 3, 1, 1, 4, 0, 1⟩ ∧
      ∀ C : TextureInfo,
        hashTextureInfo C ∉ ([(5, 77)] : TextureMap).map Prod.fst →
        Lookup [(5, 77)] C = none :=
  Lookup_hash_key_equivalence [(5, 77)] ⟨1, 2, 3, 1, 1, 4, 0, 1⟩
    ⟨1, 2, 3, 1, 1, 4, 0, 1⟩ (by repeat first | constructor | rfl)

/-! ### C9: the bit-packed 16-bit swizzle of `TextureRegionView`

The header packs four 3-bit channel selectors into the low 12 bits of a
16-bit value (`swiz_x : 3; swiz_y : 3; swiz_z : 3; swiz_w : 3;` then 4
anonymous padding bits), unioned with `uint16_t swizzle`.  On the documented
(little-endian) layout `swiz_x` occupies bits 0-2, `swiz_y` bits 3-5,
`swiz_z` bits 6-8, `swiz_w` bits 9-11, and bits 12-15 are reserved. -/

/-- Packing of the four 3-bit channel selectors into the 16-bit `swizzle`
field, per the bit-field layout of `TextureRegionView` in the header. -/
def packSwizzle (x y z w : Nat) : Nat :=
  x % 8 + 8 * (y % 8) + 64 * (z % 8) + 512 * (w % 8)

/-- Selector `swiz_x`: bits 0-2 of the packed 16-bit swizzle. -/
def swiz_x (s : Nat) : Nat := s % 8

/-- Selector `swiz_y`: bits 3-5 of the packed 16-bit swizzle. -/
def swiz_y (s : Nat) : Nat := s / 8 % 8

/-- Selector `swiz_z`: bits 6-8 of the packed 16-bit swizzle. -/
def swiz_z (s : Nat) : Nat := s / 64 % 8

/-- Selector `swiz_w`: bits 9-11 of the packed 16-bit swizzle. -/
def swiz_w (s : Nat) : Nat := s / 512 % 8

theorem swiz_unpack_pack (x y z w : Nat) (hx : x < 8) (hy : y < 8)
    (hz : z < 8) (hw : w < 8) :
    swiz_x (packSwizzle x y z w) = x ∧ swiz_y (packSwizzle x y z w) = y ∧
      swiz_z (packSwizzle x y z w) = z ∧ swiz_w (packSwizzle x y z w) = w := by
  unfold packSwizzle swiz_x swiz_y swiz_z swiz_w
  rw [Nat.mod_eq_of_lt hx, Nat.mod_eq_of_lt hy, Nat.mod_eq_of_lt hz,
    Nat.mod_eq_of_lt hw]
  refine ⟨?_, ?_, ?_, ?_⟩
  · omega
  · omega
  · omega
  · omega

/-- C9: the four channel selectors are four independent 3-bit fields in the
low 12 bits of the packed value (so the packed value is below 2^12 ≤ 2^16,
leaving 4 reserved bits); equal packed values yield equal selector tuples,
and distinct selector tuples yield distinct packed values. -/
theorem swizzle_pack_faithful (x y z w x' y' z' w' : Nat)
    (hx : x < 8) (hy : y < 8) (hz : z < 8) (hw : w < 8)
    (hx' : x' < 8) (hy' : y' < 8) (hz' : z' < 8) (hw' : w' < 8) :
    packSwizzle x y z w < 2 ^ 12 ∧
      (packSwizzle x y z w = packSwizzle x' y' z' w' →
        x = x' ∧ y = y' ∧ z = z' ∧ w = w') ∧
      ((x, y, z, w) ≠ (x', y', z', w') →
        packSwizzle x y z w ≠ packSwizzle x' y' z' w') := by
  have h1 := swiz_unpack_pack x y z w hx hy hz hw
  have h2 := swiz_unpack_pack x' y' z' w' hx' hy' hz' hw'
  refine ⟨?_, ?_, ?_⟩
  · unfold packSwizzle
    omega
  · intro heq
    refine ⟨?_, ?_, ?_, ?_⟩
    · rw [← h1.1, ← h2.1, heq]
    · rw [← h1.2.1, ← h2.2.1, heq]
    · rw [← h1.2.2.1, ← h2.2.2.1, heq]
    · rw [← h1.2.2.2, ← h2.2.2.2, heq]
  · intro hne heq
    apply hne
    have := swiz_unpack_pack x y z w hx hy hz hw
    have h3 : x = x' ∧ y = y' ∧ z = z' ∧ w = w' := by
      refine ⟨?_, ?_, ?_, ?_⟩
      · rw [← h1.1, ← h2.1, heq]
      · rw [← h1.2.1, ← h2.2.1, heq]
      · rw [← h1.2.2.1, ← h2.2.2.1, heq]
      · rw [← h1.2.2.2, ← h2.2.2.2, heq]
    simp [h3.1, h3.2.1, h3.2.2.1, h3.2.2.2]

/-- Witness for C9 at concrete selector tuples (1,2,3,4) and (4,3,2,1). -/
theorem swizzle_pack_faithful_witness :
    packSwizzle 1 2 3 4 < 2 ^ 12 ∧
      (packSwizzle 1 2 3 4 = packSwizzle 4 3 2 1 →
        1 = 4 ∧ 2 = 3 ∧ 3 = 2 ∧ 4 = 1) ∧
      (((1, 2, 3, 4) : Nat × Nat × Nat × Nat) ≠ (4, 3, 2, 1) →
        packSwizzle 1 2 3 4 ≠ packSwizzle 4 3 2 1) :=
  swizzle_pack_faithful 1 2 3 4 4 3 2 1 (by decide) (by decide) (by decide)
    (by decide) (by decide) (by decide) (by decide) (by decide)

/-! ### Shared association-list lemmas -/

theorem not_mem_keys_of_lookup_eq_none {β : Type} (k : Nat) (l : List (Nat × β))
    (h : List.lookup k l = none) : k ∉ l.map Prod.fst := by
  induction l with
  | nil => simp
  | cons p rest ih =>
    rw [List.lookup_cons] at h
    by_cases hk : k = p.1
    · rw [hk] at h
      simp at h
    · simp only [List.map_cons, List.mem_cons]
      push_neg
      refine ⟨hk, ?_⟩
      apply ih
      have hb : (k == p.1) = false := by simp [hk]
      rwa [hb] at h

theorem mem_of_lookup_eq_some {β : Type} (k : Nat) (v : β) (l : List (Nat × β))
    (h : List.lookup k l = some v) : (k, v) ∈ l := by
  induction l with
  | nil => simp at h
  | cons p rest ih =>
    rw [List.lookup_cons] at h
    by_cases hk : k = p.1
    · rw [hk] at h
      simp at h
      simp [← h, hk]
    · have hb : (k == p.1) = false := by simp [hk]
      rw [hb] at h
      exact List.mem_cons_of_mem _ (ih h)

theorem lookup_append_right {β : Type} (k : Nat) (l1 l2 : List (Nat × β))
    (h : List.lookup k l1 = none) :
    List.lookup k (l1 ++ l2) = List.lookup k l2 := by
  induction l1 with
  | nil => simp
  | cons p rest ih =>
    rw [List.lookup_cons] at h
    rw [List.cons_append, List.lookup_cons]
    by_cases hk : k = p.1
    · rw [hk] at h
      simp at h
    · have hb : (k == p.1) = false := by simp [hk]
      rw [hb] at h ⊢
      exact ih h

theorem lookup_append_left {β : Type} (k : Nat) (v : β) (l1 l2 : List (Nat × β))
    (h : List.lookup k l1 = some v) :
    List.lookup k (l1 ++ l2) = some v := by
  induction l1 with
  | nil => simp at h
  | cons p rest ih =>
    rw [List.lookup_cons] at h
    rw [List.cons_append, List.lookup_cons]
    by_cases hk : k = p.1
    · have hb : (k == p.1) = true := by simp [hk]
      rw [hb] at h ⊢
      exact h
    · have hb : (k == p.1) = false := by simp [hk]
      rw [hb] at h ⊢
      exact ih h

/-! ### C2: descriptor-set memoization in `PrepareTextureSet` -/

/-- One texture binding as supplied by the shader (`Shader::TextureBinding`):
fetch-constant index, resolved format, dimensions, requested swizzle. -/
structure Binding where
  fetch_constant : Nat
  format : Nat
  width : Nat
  height : Nat
  swizzle : Nat
deriving DecidableEq, Repr

/-- Per-binding contribution to the 64-bit binding hash. -/
def hashBinding (b : Binding) : Nat :=
  b.fetch_constant + 131 * b.format + 17161 * b.width + 2248091 * b.height +
    294499921 * b.swizzle

/-- Modelled from the spec: `TextureCache::HashTextureBindings` (body in the
missing `texture_cache.cc`) folds each not-yet-seen binding into the running
64-bit hash and records its fetch-constant index in the 32-bit mask so "a
constant referenced by both stages is hashed/resolved once".  Returns the
updated mask and hash. -/
def HashTextureBindings : Nat → Nat → List Binding → Nat × Nat
  | fetch_mask, acc, [] => (fetch_mask, acc)
  | fetch_mask, acc, b :: rest =>
    if Nat.testBit fetch_mask b.fetch_constant then
      HashTextureBindings fetch_mask acc rest
    else
      HashTextureBindings (fetch_mask ||| 2 ^ b.fetch_constant)
        ((acc * 1099511628211 + hashBinding b) % 2 ^ 64) rest

/-- Combined 64-bit hash over the union of vertex- and pixel-stage bindings,
sharing one fetch-constant mask across the two lists. -/
def hashBindingLists (vertex_bindings pixel_bindings : List Binding) : Nat :=
  let vres := HashTextureBindings 0 0 vertex_bindings
  (HashTextureBindings vres.1 vres.2 pixel_bindings).2

/-- Memoization state of the descriptor-set assembler: the header's
`texture_sets_` map (`std::unordered_map<uint64_t, VkDescriptorSet>`) as an
association list from binding hash to descriptor-set identifier, plus a
fresh-identifier counter standing for pool allocation. -/
structure AssemblerState where
  texture_sets : List (Nat × Nat)
  next_set : Nat
deriving DecidableEq, Repr

/-- Outcome of one `PrepareTextureSet` call: the returned descriptor set,
how many bindings were resolved (demanded) during the call, and the state
afterwards. -/
structure PrepareResult where
  set : Nat
  resolved_bindings : Nat
  state : AssemblerState
deriving DecidableEq, Repr

/-- Modelled from the spec: `TextureCache::PrepareTextureSet` (body in the
missing `texture_cache.cc`) computes the combined binding hash, returns a
memoized descriptor set on hit without resolving any binding, and on miss
resolves every binding, allocates a fresh set and inserts it under the
hash. -/
def PrepareTextureSet (st : AssemblerState)
    (vertex_bindings pixel_bindings : List Binding) : PrepareResult :=
  let h := hashBindingLists vertex_bindings pixel_bindings
  match List.lookup h st.texture_sets with
  | some s => ⟨s, 0, st⟩
  | none =>
      ⟨st.next_set, vertex_bindings.length + pixel_bindings.length,
        ⟨(h, st.next_set) :: st.texture_sets, st.next_set + 1⟩⟩

/-- C2: calling `PrepareTextureSet` twice with bit-identical vertex and pixel
binding lists makes the second call hit the memoized descriptor set: it
returns the same set as the first call, resolves zero bindings, and leaves
the assembler state unchanged. -/
theorem PrepareTextureSet_memoized (st : AssemblerState)
    (vertex_bindings pixel_bindings : List Binding) :
    (PrepareTextureSet (PrepareTextureSet st vertex_bindings pixel_bindings).state
        vertex_bindings pixel_bindings).set =
      (PrepareTextureSet st vertex_bindings pixel_bindings).set ∧
    (PrepareTextureSet (PrepareTextureSet st vertex_bindings pixel_bindings).state
        vertex_bindings pixel_bindings).resolved_bindings = 0 ∧
    (PrepareTextureSet (PrepareTextureSet st vertex_bindings pixel_bindings).state
        vertex_bindings pixel_bindings).state =
      (PrepareTextureSet st vertex_bindings pixel_bindings).state := by
  unfold PrepareTextureSet
  cases hl : List.lookup (hashBindingLists vertex_bindings pixel_bindings)
      st.texture_sets with
  | some s => simp [hl]
  | none => simp [hl, List.lookup_cons]

/-! ### C5: per-region view cache (`DemandTextureRegionView`) -/

/-- The view list of one `TextureRegion` (field `views` of the header),
embedded as an association list from 16-bit swizzle value to view
identifier, plus a fresh-identifier counter standing for view creation. -/
structure RegionViews where
  views : List (Nat × Nat)
  next_view : Nat
deriving DecidableEq, Repr

/-- Modelled from the spec: `TextureCache::DemandTextureRegionView` (body in
the missing `texture_cache.cc`) "linear-scans the region's view list for a
matching swizzle; creates and appends on miss".  Returns the view and the
region's view state afterwards. -/
def DemandTextureRegionView (r : RegionViews) (swizzle : Nat) :
    Nat × RegionViews :=
  match List.lookup swizzle r.views with
  | some v => (v, r)
  | none => (r.next_view, ⟨r.views ++ [(swizzle, r.next_view)], r.next_view + 1⟩)

/-- Well-formedness of a region's view list: no two views share a swizzle,
no two swizzles share a view object, and every stored view identifier is
older than the fresh counter. -/
def ViewsWF (r : RegionViews) : Prop :=
  (r.views.map Prod.fst).Nodup ∧ (r.views.map Prod.snd).Nodup ∧
    ∀ p ∈ r.views, p.2 < r.next_view

theorem snd_nodup_key_eq {l : List (Nat × Nat)}
    (hnd : (l.map Prod.snd).Nodup) {a b c : Nat}
    (ha : (a, c) ∈ l) (hb : (b, c) ∈ l) : a = b := by
  induction l with
  | nil => simp at ha
  | cons p rest ih =>
    simp only [List.map_cons, List.nodup_cons] at hnd
    rcases List.mem_cons.mp ha with ha1 | ha2
    · rcases List.mem_cons.mp hb with hb1 | hb2
      · rw [← ha1] at hb1
        exact (Prod.mk.injEq _ _ _ _ ▸ hb1.symm).1
      · exfalso
        apply hnd.1
        have : c = p.2 := by rw [← ha1]
        rw [← this]
        exact List.mem_map_of_mem Prod.snd hb2
    · rcases List.mem_cons.mp hb with hb1 | hb2
      · exfalso
        apply hnd.1
        have : c = p.2 := by rw [← hb1]
        rw [← this]
        exact List.mem_map_of_mem Prod.snd ha2
      · exact ih hnd.2 ha2 hb2

theorem ViewsWF_demand (r : RegionViews) (s : Nat) (hWF : ViewsWF r) :
    ViewsWF (DemandTextureRegionView r s).2 := by
  cases hl : List.lookup s r.views with
  | some v =>
    have hr : DemandTextureRegionView r s = (v, r) := by
      unfold DemandTextureRegionView
      rw [hl]
    rw [hr]
    exact hWF
  | none =>
    have hr : DemandTextureRegionView r s =
        (r.next_view, ⟨r.views ++ [(s, r.next_view)], r.next_view + 1⟩) := by
      unfold DemandTextureRegionView
      rw [hl]
    rw [hr]
    obtain ⟨h1, h2, h3⟩ := hWF
    refine ⟨?_, ?_, ?_⟩
    · simp only [List.map_append, List.map_cons, List.map_nil]
      rw [List.nodup_append]
      refine ⟨h1, List.nodup_singleton _, ?_⟩
      intro a ha hb
      simp at hb
      rw [hb] at ha
      exact not_mem_keys_of_lookup_eq_none s r.views hl ha
    · simp only [List.map_append, List.map_cons, List.map_nil]
      rw [List.nodup_append]
      refine ⟨h2, List.nodup_singleton _, ?_⟩
      intro a ha hb
      simp at hb
      rw [hb] at ha
      obtain ⟨p, hp, hps⟩ := List.mem_map.mp ha
      exact absurd hps (Nat.ne_of_lt (h3 p hp))
    · intro p hp
      rcases List.mem_append.mp hp with hp1 | hp2
      · exact Nat.lt_succ_of_lt (h3 p hp1)
      · simp only [List.mem_singleton] at hp2
        rw [hp2]
        exact Nat.lt_succ_self _

/-- C5: under a well-formed view list, demanding the same swizzle twice
returns the identical view with an unchanged view list; demanding two
distinct swizzles returns two distinct views, both present in the region's
final view list; and the view list never holds two views with the same
swizzle (well-formedness is preserved). -/
theorem DemandTextureRegionView_spec (r : RegionViews) (s s1 s2 : Nat)
    (hWF : ViewsWF r) (hne : s1 ≠ s2) :
    ((DemandTextureRegionView (DemandTextureRegionView r s).2 s).1 =
        (DemandTextureRegionView r s).1 ∧
      (DemandTextureRegionView (DemandTextureRegionView r s).2 s).2 =
        (DemandTextureRegionView r s).2) ∧
    ((DemandTextureRegionView r s1).1 ≠
        (DemandTextureRegionView (DemandTextureRegionView r s1).2 s2).1 ∧
      (s1, (DemandTextureRegionView r s1).1) ∈
        (DemandTextureRegionView (DemandTextureRegionView r s1).2 s2).2.views ∧
      (s2, (DemandTextureRegionView (DemandTextureRegionView r s1).2 s2).1) ∈
        (DemandTextureRegionView (DemandTextureRegionView r s1).2 s2).2.views) ∧
    ViewsWF (DemandTextureRegionView r s).2 := by
  obtain ⟨hnd1, hnd2, hbound⟩ := hWF
  refine ⟨?_, ?_, ViewsWF_demand r s ⟨hnd1, hnd2, hbound⟩⟩
  · unfold DemandTextureRegionView
    cases hl : List.lookup s r.views with
    | some v => simp [hl]
    | none =>
      have hl2 : List.lookup s (r.views ++ [(s, r.next_view)]) =
          some r.next_view := by
        rw [lookup_append_right s r.views _ hl]
        simp [List.lookup_cons]
      simp [hl, hl2]
  · cases hl1 : List.lookup s1 r.views with
    | some v1 =>
      have hr1 : DemandTextureRegionView r s1 = (v1, r) := by
        unfold DemandTextureRegionView
        rw [hl1]
      cases hl2 : List.lookup s2 r.views with
      | some v2 =>
        have hr2 : DemandTextureRegionView r s2 = (v2, r) := by
          unfold DemandTextureRegionView
          rw [hl2]
        rw [hr1]
        simp only [hr2]
        refine ⟨?_, ?_, ?_⟩
        · intro heq
          exact hne (snd_nodup_key_eq hnd2
            (heq ▸ mem_of_lookup_eq_some s1 v1 r.views hl1)
            (mem_of_lookup_eq_some s2 v2 r.views hl2))
        · exact mem_of_lookup_eq_some s1 v1 r.views hl1
        · exact mem_of_lookup_eq_some s2 v2 r.views hl2
      | none =>
        have hr2 : DemandTextureRegionView r s2 =
            (r.next_view, ⟨r.views ++ [(s2, r.next_view)], r.next_view + 1⟩) := by
          unfold DemandTextureRegionView
          rw [hl2]
        rw [hr1]
        simp only [hr2]
        refine ⟨?_, ?_, ?_⟩
        · intro heq
          have := hbound _ (mem_of_lookup_eq_some s1 v1 r.views hl1)
          simp at this heq
          omega
        · exact List.mem_append_left _ (mem_of_lookup_eq_some s1 v1 r.views hl1)
        · simp
    | none =>
      have hr1 : DemandTextureRegionView r s1 =
          (r.next_view, ⟨r.views ++ [(s1, r.next_view)], r.next_view + 1⟩) := by
        unfold DemandTextureRegionView
        rw [hl1]
      rw [hr1]
      cases hl2 : List.lookup s2 (r.views ++ [(s1, r.next_view)]) with
      | some v2 =>
        have hr2 : DemandTextureRegionView
            ⟨r.views ++ [(s1, r.next_view)], r.next_view + 1⟩ s2 =
            (v2, ⟨r.views ++ [(s1, r.next_view)], r.next_view + 1⟩) := by
          unfold DemandTextureRegionView
          simp only at hl2 ⊢
          rw [hl2]
        simp only [hr2]
        have hmem : (s2, v2) ∈ r.views ++ [(s1, r.next_view)] :=
          mem_of_lookup_eq_some s2 v2 _ hl2
        have hmem2 : (s2, v2) ∈ r.views := by
          rcases List.mem_append.mp hmem with h | h
          · exact h
          · simp at h
            exact absurd h.1 (Ne.symm hne)
        refine ⟨?_, by simp, hmem⟩
        · intro heq
          have := hbound _ hmem2
          omega
      | none =>
        have hr2 : DemandTextureRegionView
            ⟨r.views ++ [(s1, r.next_view)], r.next_view + 1⟩ s2 =
            (r.next_view + 1,
              ⟨(r.views ++ [(s1, r.next_view)]) ++ [(s2, r.next_view + 1)],
                r.next_view + 2⟩) := by
          unfold DemandTextureRegionView
          simp only at hl2 ⊢
          rw [hl2]
        simp only [hr2]
        refine ⟨by omega, ?_, by simp⟩
        · apply List.mem_append_left
          simp

/-- Witness for C5 at a concrete well-formed region and swizzles 3 ≠ 5. -/
theorem DemandTextureRegionView_spec_witness :
    ((DemandTextureRegionView (DemandTextureRegionView ⟨[(7, 0)], 1⟩ 3).2 3).1 =
        (DemandTextureRegionView ⟨[(7, 0)], 1⟩ 3).1 ∧
      (DemandTextureRegionView (DemandTextureRegionView ⟨[(7, 0)], 1⟩ 3).2 3).2 =
        (DemandTextureRegionView ⟨[(7, 0)], 1⟩ 3).2) ∧
    ((DemandTextureRegionView ⟨[(7, 0)], 1⟩ 3).1 ≠
        (DemandTextureRegionView (DemandTextureRegionView ⟨[(7, 0)], 1⟩ 3).2 5).1 ∧
      (3, (DemandTextureRegionView ⟨[(7, 0)], 1⟩ 3).1) ∈
        (DemandTextureRegionView (DemandTextureRegionView ⟨[(7, 0)], 1⟩ 3).2 5).2.views ∧
      (5, (DemandTextureRegionView (DemandTextureRegionView ⟨[(7, 0)], 1⟩ 3).2 5).1) ∈
        (DemandTextureRegionView (DemandTextureRegionView ⟨[(7, 0)], 1⟩ 3).2 5).2.views) ∧
    ViewsWF (DemandTextureRegionView ⟨[(7, 0)], 1⟩ 3).2 :=
  DemandTextureRegionView_spec ⟨[(7, 0)], 1⟩ 3 3 5
    ⟨by decide, by decide, by decide⟩ (by decide)

/-! ### C3: texture destruction lifecycle (`Scavenge` / `WritebackTexture`) -/

/-- Lifecycle-relevant state of one resident texture: whether its latest
GPU-usage fence (`in_flight_fence` in the header) has signaled, and whether
a writeback of the texture is in flight. -/
structure TexLifecycle where
  fence_signaled : Bool
  writeback_in_flight : Bool
deriving DecidableEq, Repr

/-- Lifecycle state of the cache: resident textures (identifier paired with
lifecycle state) and the identifiers of destroyed textures. -/
structure CacheLifecycleState where
  live : List (Nat × TexLifecycle)
  destroyed : List Nat
deriving DecidableEq, Repr

/-- The cache operations that touch a texture's lifecycle. -/
inductive CacheEvent where
  | allocate (t : Nat)
  | useTexture (t : Nat)
  | signalFence (t : Nat)
  | beginWriteback (t : Nat)
  | endWriteback (t : Nat)
  | scavenge
deriving DecidableEq, Repr

/-- Point update of one texture's lifecycle state in the resident list. -/
def updateTex (l : List (Nat × TexLifecycle)) (t : Nat)
    (f : TexLifecycle → TexLifecycle) : List (Nat × TexLifecycle) :=
  l.map fun p => if p.1 = t then (p.1, f p.2) else p

/-- A texture is eligible for destruction when its latest usage fence has
signaled and no writeback of it is in flight. -/
def canDestroy (ts : TexLifecycle) : Bool :=
  ts.fence_signaled && !ts.writeback_in_flight

/-- Modelled from the spec: the lifecycle transitions of
`texture_cache.cc` (missing).  A texture is created on demand; drawing with
it installs a new unsignaled usage fence; the fence later signals;
`WritebackTexture` marks a writeback in flight until its copy retires; and
`Scavenge` destroys exactly the textures whose fence has signaled and which
are not mid-writeback, keeping all others resident. -/
def cacheStep (s : CacheLifecycleState) (e : CacheEvent) : CacheLifecycleState :=
  match e with
  | .allocate t => ⟨(t, ⟨true, false⟩) :: s.live, s.destroyed⟩
  | .useTexture t =>
      ⟨updateTex s.live t (fun ts => ⟨false, ts.writeback_in_flight⟩), s.destroyed⟩
  | .signalFence t =>
      ⟨updateTex s.live t (fun ts => ⟨true, ts.writeback_in_flight⟩), s.destroyed⟩
  | .beginWriteback t =>
      ⟨updateTex s.live t (fun ts => ⟨ts.fence_signaled, true⟩), s.destroyed⟩
  | .endWriteback t =>
      ⟨updateTex s.live t (fun ts => ⟨ts.fence_signaled, false⟩), s.destroyed⟩
  | .scavenge =>
      ⟨s.live.filter (fun p => !canDestroy p.2),
        s.destroyed ++ (s.live.filter (fun p => canDestroy p.2)).map Prod.fst⟩

theorem updateTex_keeps_key (l : List (Nat × TexLifecycle)) (t : Nat)
    (f : TexLifecycle → TexLifecycle) (ts : TexLifecycle)
    (h : (t, ts) ∈ l) : ∃ ts2, (t, ts2) ∈ updateTex l t f := by
  unfold updateTex
  by_cases hc : ((t : Nat), ts).1 = t
  · exact ⟨f ts, by
      have := List.mem_map_of_mem (fun p : Nat × TexLifecycle =>
        if p.1 = t then (p.1, f p.2) else p) h
      simpa [hc] using this⟩
  · exact absurd rfl hc

/-- C3: a resident texture disappears from the resident list only through a
`scavenge` event, and only when its latest usage fence has signaled and no
writeback of it is in flight; in particular a texture with a writeback in
flight is never deleted. -/
theorem scavenge_only_destroys (s : CacheLifecycleState) (e : CacheEvent)
    (t : Nat) (ts : TexLifecycle) (hmem : (t, ts) ∈ s.live)
    (hgone : ∀ ts2, (t, ts2) ∉ (cacheStep s e).live) :
    e = CacheEvent.scavenge ∧ ts.fence_signaled = true ∧
      ts.writeback_in_flight = false := by
  cases e with
  | allocate u =>
    exact absurd (List.mem_cons_of_mem _ hmem) (hgone ts)
  | useTexture u =>
    by_cases hu : t = u
    · subst hu
      simp only [cacheStep] at hgone
      obtain ⟨ts2, h2⟩ := updateTex_keeps_key s.live t _ ts hmem
      exact absurd h2 (hgone ts2)
    · exfalso
      apply hgone ts
      have := List.mem_map_of_mem (fun p : Nat × TexLifecycle =>
        if p.1 = u then (p.1, ⟨false, p.2.writeback_in_flight⟩) else p) hmem
      simpa [cacheStep, updateTex, hu] using this
  | signalFence u =>
    by_cases hu : t = u
    · subst hu
      simp only [cacheStep] at hgone
      obtain ⟨ts2, h2⟩ := updateTex_keeps_key s.live t _ ts hmem
      exact absurd h2 (hgone ts2)
    · exfalso
      apply hgone ts
      have := List.mem_map_of_mem (fun p : Nat × TexLifecycle =>
        if p.1 = u then (p.1, ⟨true, p.2.writeback_in_flight⟩) else p) hmem
      simpa [cacheStep, updateTex, hu] using this
  | beginWriteback u =>
    by_cases hu : t = u
    · subst hu
      simp only [cacheStep] at hgone
      obtain ⟨ts2, h2⟩ := updateTex_keeps_key s.live t _ ts hmem
      exact absurd h2 (hgone ts2)
    · exfalso
      apply hgone ts
      have := List.mem_map_of_mem (fun p : Nat × TexLifecycle =>
        if p.1 = u then (p.1, ⟨p.2.fence_signaled, true⟩) else p) hmem
      simpa [cacheStep, updateTex, hu] using this
  | endWriteback u =>
    by_cases hu : t = u
    · subst hu
      simp only [cacheStep] at hgone
      obtain ⟨ts2, h2⟩ := updateTex_keeps_key s.live t _ ts hmem
      exact absurd h2 (hgone ts2)
    · exfalso
      apply hgone ts
      have := List.mem_map_of_mem (fun p : Nat × TexLifecycle =>
        if p.1 = u then (p.1, ⟨p.2.fence_signaled, false⟩) else p) hmem
      simpa [cacheStep, updateTex, hu] using this
  | scavenge =>
    refine ⟨rfl, ?_⟩
    by_cases hd : canDestroy ts = true
    · unfold canDestroy at hd
      simp at hd
      exact ⟨hd.1, hd.2⟩
    · exfalso
      apply hgone ts
      simp only [cacheStep, List.mem_filter]
      exact ⟨hmem, by simp [hd]⟩

/-- Witness for C3: a single resident texture with signaled fence and no
writeback in flight is destroyed by a concrete `scavenge` event. -/
theorem scavenge_only_destroys_witness :
    CacheEvent.scavenge = CacheEvent.scavenge ∧
      (⟨true, false⟩ : TexLifecycle).fence_signaled = true ∧
      (⟨true, false⟩ : TexLifecycle).writeback_in_flight = false :=
  scavenge_only_destroys ⟨[(0, ⟨true, false⟩)], []⟩ CacheEvent.scavenge 0
    ⟨true, false⟩ (by simp) (by intro ts2; simp [cacheStep, canDestroy])

/-! ### C7: `ComputeTextureStorage` and unrecognized formats -/

/-- Modelled from the spec: the Conversion Engine's recognized guest format
set (the format handling lives in the missing `texture_cache.cc`).  For each
recognized guest format code this yields its block width, block height and
bytes per block; unrecognized codes yield `none`.  The codes follow the
guest GPU's texture-format enumeration (8-bit and 16-bit raw formats,
32-bit raw formats, and the DXT/CTX1 block-compressed family). -/
def formatBlockInfo (format : Nat) : Option (Nat × Nat × Nat) :=
  match format with
  | 2 => some (1, 1, 1)
  | 3 => some (1, 1, 2)
  | 4 => some (1, 1, 2)
  | 5 => some (1, 1, 2)
  | 6 => some (1, 1, 4)
  | 10 => some (1, 1, 2)
  | 12 => some (4, 4, 8)
  | 13 => some (4, 4, 16)
  | 14 => some (4, 4, 16)
  | 18 => some (4, 4, 8)
  | _ => none

/-- Modelled from the spec: `TextureCache::ComputeTextureStorage` (body in
the missing `texture_cache.cc`) "computes the packed byte length needed to
hold `src` after conversion, accounting for block-compressed vs. raw layouts
and required row/slice alignment.  Fails (returns false) for formats the
decoder set does not recognize."  `none` models the `false` return, where no
output length is produced. -/
def ComputeTextureStorage (src : TextureInfo) : Option Nat :=
  match formatBlockInfo src.format with
  | none => none
  | some (bw, bh, bpb) =>
      let row_blocks := (src.width + bw - 1) / bw
      let col_blocks := (src.height + bh - 1) / bh
      let row_pitch := (row_blocks * bpb + 255) / 256 * 256
      some (row_pitch * col_blocks * src.depth)

/-- C7: `ComputeTextureStorage` produces no storage length exactly when the
descriptor's format is outside the decoder's recognized format set; an
unsupported format is surfaced as failure rather than a wrong size. -/
theorem ComputeTextureStorage_unsupported (src : TextureInfo) :
    ComputeTextureStorage src = none ↔ formatBlockInfo src.format = none := by
  unfold ComputeTextureStorage
  cases h : formatBlockInfo src.format with
  | none => simp
  | some info =>
    obtain ⟨bw, bh, bpb⟩ := info
    simp

/-! ### C4: double-buffered invalidated-texture sets and the write-watch
callback

The header keeps `invalidated_textures_sets_[2]` with
`invalidated_textures_` pointing at the currently-active set, guarded by
`invalidated_textures_mutex_`.  We embed the two sets, the active role, and
an explicit record of which set a maintenance drain is currently working
through; events are the atomic sections of the code (each mutex-protected
critical section is one step). -/

/-- State of the invalidation tracker: the two invalidated-texture sets,
which of the two is active (accepting write-watch insertions), and which
one (if any) a maintenance pass is currently draining. -/
structure InvalTrackerState where
  set0 : List Nat
  set1 : List Nat
  active : Bool
  draining : Option Bool
deriving DecidableEq, Repr

/-- The set with index `i` (`false` = `invalidated_textures_sets_[0]`). -/
def getSet (s : InvalTrackerState) (i : Bool) : List Nat :=
  if i then s.set1 else s.set0

/-- Atomic events of the invalidation tracker.  `watchCallback` is the
write-watch callback's critical section; `swapRoles` is the maintenance
pass's role swap; `drainStep` processes one texture of the draining set;
`drainEnd` finishes the maintenance pass. -/
inductive InvalEvent where
  | watchCallback (t : Nat)
  | swapRoles
  | drainStep
  | drainEnd
deriving DecidableEq, Repr

/-- Modelled from the spec: the invalidation tracker of the missing
`texture_cache.cc`.  `WatchCallback` only inserts the texture into the
currently-active set under the mutex; the maintenance pass swaps the
active/draining roles once (a second swap during a pass is a no-op because
passes are serialized on the recording thread) and then drains the
previously-active set. -/
def invalStep (s : InvalTrackerState) (e : InvalEvent) : InvalTrackerState :=
  match e with
  | .watchCallback t =>
      if s.active then ⟨s.set0, t :: s.set1, s.active, s.draining⟩
      else ⟨t :: s.set0, s.set1, s.active, s.draining⟩
  | .swapRoles =>
      match s.draining with
      | none => ⟨s.set0, s.set1, !s.active, some s.active⟩
      | some _ => s
  | .drainStep =>
      match s.draining with
      | none => s
      | some d =>
          if d then ⟨s.set0, s.set1.tail, s.active, s.draining⟩
          else ⟨s.set0.tail, s.set1, s.active, s.draining⟩
  | .drainEnd => ⟨s.set0, s.set1, s.active, none⟩

/-- Initial tracker state: both sets empty, set 0 active, no drain under
way. -/
def invalInit : InvalTrackerState := ⟨[], [], false, none⟩

/-- Executing a trace of atomic events. -/
def invalRun (s : InvalTrackerState) (tr : List InvalEvent) : InvalTrackerState :=
  tr.foldl invalStep s

/-- The tracker's role invariant: whenever a drain is in progress, the set
being drained is not the active set. -/
def InvalInv (s : InvalTrackerState) : Prop :=
  ∀ d, s.draining = some d → d ≠ s.active

theorem invalStep_preserves_inv (s : InvalTrackerState) (e : InvalEvent)
    (h : InvalInv s) : InvalInv (invalStep s e) := by
  cases e with
  | watchCallback t =>
    intro d hd
    have hact : (invalStep s (InvalEvent.watchCallback t)).active = s.active := by
      unfold invalStep
      by_cases h2 : s.active = true <;> simp [h2]
    have hdrn : (invalStep s (InvalEvent.watchCallback t)).draining =
        s.draining := by
      unfold invalStep
      by_cases h2 : s.active = true <;> simp [h2]
    rw [hdrn] at hd
    rw [hact]
    exact h d hd
  | swapRoles =>
    intro d hd
    cases hdr : s.draining with
    | none =>
      have hstep : invalStep s InvalEvent.swapRoles =
          ⟨s.set0, s.set1, !s.active, some s.active⟩ := by
        unfold invalStep
        rw [hdr]
      rw [hstep] at hd ⊢
      have h2 : s.active = d := by
        injection hd
      rw [← h2]
      show s.active ≠ !s.active
      cases s.active <;> decide
    | some d2 =>
      have hstep : invalStep s InvalEvent.swapRoles = s := by
        unfold invalStep
        rw [hdr]
      rw [hstep] at hd ⊢
      exact h d hd
  | drainStep =>
    intro d hd
    cases hdr : s.draining with
    | none =>
      have hstep : invalStep s InvalEvent.drainStep = s := by
        unfold invalStep
        rw [hdr]
      rw [hstep] at hd ⊢
      exact h d hd
    | some d2 =>
      have hact : (invalStep s InvalEvent.drainStep).active = s.active := by
        unfold invalStep
        rw [hdr]
        by_cases h2 : d2 = true <;> simp [h2]
      have hdrn : (invalStep s InvalEvent.drainStep).draining = s.draining := by
        unfold invalStep
        rw [hdr]
        by_cases h2 : d2 = true <;> simp [h2, hdr]
      rw [hdrn] at hd
      rw [hact]
      exact h d hd
  | drainEnd =>
    intro d hd
    have hdrn : (invalStep s InvalEvent.drainEnd).draining = none := rfl
    rw [hdrn] at hd
    cases hd

theorem invalRun_preserves_inv (s : InvalTrackerState) (tr : List InvalEvent)
    (h : InvalInv s) : InvalInv (invalRun s tr) := by
  induction tr generalizing s with
  | nil => exact h
  | cons e rest ih =>
    have : invalRun s (e :: rest) = invalRun (invalStep s e) rest := rfl
    rw [this]
    exact ih _ (invalStep_preserves_inv s e h)

theorem invalInit_inv : InvalInv invalInit := by
  intro d hd
  simp [invalInit] at hd

/-- C4: in every state reachable from the initial tracker state in which a
maintenance drain is working through set `d`, the write-watch callback's
critical section (running from any thread) inserts only into the active set
`a` with `a ≠ d`: it leaves the draining set untouched and changes no role,
and a second role swap during the same maintenance pass is a no-op — so the
roles swap exactly once per pass and no set is drained and mutated
concurrently. -/
theorem watch_callback_never_touches_draining_set (tr : List InvalEvent)
    (t : Nat) (d : Bool) (hd : (invalRun invalInit tr).draining = some d) :
    d ≠ (invalRun invalInit tr).active ∧
    getSet (invalStep (invalRun invalInit tr) (InvalEvent.watchCallback t)) d =
      getSet (invalRun invalInit tr) d ∧
    getSet (invalStep (invalRun invalInit tr) (InvalEvent.watchCallback t))
        (invalRun invalInit tr).active =
      t :: getSet (invalRun invalInit tr) (invalRun invalInit tr).active ∧
    (invalStep (invalRun invalInit tr) (InvalEvent.watchCallback t)).active =
      (invalRun invalInit tr).active ∧
    (invalStep (invalRun invalInit tr) (InvalEvent.watchCallback t)).draining =
      (invalRun invalInit tr).draining ∧
    invalStep (invalRun invalInit tr) InvalEvent.swapRoles =
      invalRun invalInit tr := by
  have hinv : InvalInv (invalRun invalInit tr) :=
    invalRun_preserves_inv invalInit tr invalInit_inv
  have hda : d ≠ (invalRun invalInit tr).active := hinv d hd
  set s := invalRun invalInit tr with hs
  refine ⟨hda, ?_, ?_, ?_, ?_, ?_⟩
  · cases hsa : s.active with
    | true =>
      have hdt : d ≠ true := by rw [← hsa]; exact hda
      have hdf : d = false := by
        cases d
        · rfl
        · exact absurd rfl hdt
      simp [invalStep, getSet, hsa, hdf]
    | false =>
      have hdt : d ≠ false := by rw [← hsa]; exact hda
      have hdf : d = true := by
        cases d
        · exact absurd rfl hdt
        · rfl
      simp [invalStep, getSet, hsa, hdf]
  · by_cases ha : s.active = true
    · simp [invalStep, getSet, ha]
    · have ha2 : s.active = false := Bool.eq_false_iff.mpr ha
      simp [invalStep, getSet, ha2]
  · by_cases ha : s.active = true
    · simp [invalStep, ha]
    · simp [invalStep, ha]
  · by_cases ha : s.active = true
    · simp [invalStep, ha]
    · simp [invalStep, ha]
  · simp [invalStep, hd]

/-- Witness for C4: after one role swap from the initial state, set 0 is
draining, the callback for texture 9 leaves it untouched and inserts into
set 1, and another swap is a no-op. -/
theorem watch_callback_never_touches_draining_set_witness :
    false ≠ (invalRun invalInit [InvalEvent.swapRoles]).active ∧
    getSet (invalStep (invalRun invalInit [InvalEvent.swapRoles])
        (InvalEvent.watchCallback 9)) false =
      getSet (invalRun invalInit [InvalEvent.swapRoles]) false ∧
    getSet (invalStep (invalRun invalInit [InvalEvent.swapRoles])
        (InvalEvent.watchCallback 9))
        (invalRun invalInit [InvalEvent.swapRoles]).active =
      9 :: getSet (invalRun invalInit [InvalEvent.swapRoles])
        (invalRun invalInit [InvalEvent.swapRoles]).active ∧
    (invalStep (invalRun invalInit [InvalEvent.swapRoles])
        (InvalEvent.watchCallback 9)).active =
      (invalRun invalInit [InvalEvent.swapRoles]).active ∧
    (invalStep (invalRun invalInit [InvalEvent.swapRoles])
        (InvalEvent.watchCallback 9)).draining =
      (invalRun invalInit [InvalEvent.swapRoles]).draining ∧
    invalStep (invalRun invalInit [InvalEvent.swapRoles]) InvalEvent.swapRoles =
      invalRun invalInit [InvalEvent.swapRoles] :=
  watch_callback_never_touches_draining_set [InvalEvent.swapRoles] 9 false
    (by decide)

/-! ### C6: one base region per texture, all others proper sub-rectangles -/

/-- A 3-D extent (`VkExtent3D`). -/
structure Extent3D where
  width : Nat
  height : Nat
  depth : Nat
deriving DecidableEq, Repr

/-- A 3-D offset (`VkOffset3D`, non-negative in this cache's use). -/
structure Offset3D where
  x : Nat
  y : Nat
  z : Nat
deriving DecidableEq, Repr

/-- A `TextureRegion` of the header: offset and size of the rectangular
sub-extent it backs, and its `region_contents_valid` flag. -/
structure Region where
  region_offset : Offset3D
  region_size : Extent3D
  region_contents_valid : Bool
deriving DecidableEq, Repr

/-- A region is the base region when it covers the texture's full logical
extent from the origin. -/
def isBaseRegion (full : Extent3D) (r : Region) : Bool :=
  (r.region_offset == (⟨0, 0, 0⟩ : Offset3D)) && (r.region_size == full)

/-- A region is a proper sub-rectangle of the base extent when it fits
inside the full extent and is not the base itself. -/
def isProperSubRegion (full : Extent3D) (r : Region) : Bool :=
  decide (r.region_offset.x + r.region_size.width ≤ full.width) &&
    decide (r.region_offset.y + r.region_size.height ≤ full.height) &&
    decide (r.region_offset.z + r.region_size.depth ≤ full.depth) &&
    !isBaseRegion full r

/-- A `Texture` of the header, restricted to its region structure: the full
logical extent of `texture_info` and the owned region list (the designated
`base_region` is the region satisfying `isBaseRegion`). -/
structure TextureRegions where
  extent : Extent3D
  regions : List Region
deriving DecidableEq, Repr

/-- The C6 invariant: exactly one base region, and every region is either
the base or a proper sub-rectangle of the base extent. -/
def BaseRegionInv (t : TextureRegions) : Prop :=
  t.regions.countP (isBaseRegion t.extent) = 1 ∧
    ∀ r ∈ t.regions,
      isBaseRegion t.extent r = true ∨ isProperSubRegion t.extent r = true

/-- Modelled from the spec: `TextureCache::AllocateTexture` (body in the
missing `texture_cache.cc`) "allocates a new Texture and its base
TextureRegion sized to the full guest extent"; the fresh base region's
contents are not yet uploaded. -/
def AllocateTexture (extent : Extent3D) : TextureRegions :=
  ⟨extent, [⟨⟨0, 0, 0⟩, extent, false⟩]⟩

/-- Modelled from the spec: `TextureCache::AllocateTextureRegion` (body in
the missing `texture_cache.cc`) "creates an independently backed native
image for a sub-rectangle ... appends to the owning Texture's region
list". -/
def AllocateTextureRegion (t : TextureRegions) (offset : Offset3D)
    (size : Extent3D) : TextureRegions :=
  ⟨t.extent, t.regions ++ [⟨offset, size, false⟩]⟩

/-- Modelled from the spec: invalidation "clears `region_contents_valid` on
affected regions" and upload "marks regions valid"; both only toggle the
validity flags of existing regions. -/
def setRegionsValidity (t : TextureRegions) (valid : Bool) : TextureRegions :=
  ⟨t.extent, t.regions.map fun r => ⟨r.region_offset, r.region_size, valid⟩⟩

theorem isBaseRegion_ignores_validity (full : Extent3D) (r : Region)
    (valid : Bool) :
    isBaseRegion full (⟨r.region_offset, r.region_size, valid⟩ : Region) =
      isBaseRegion full r := rfl

/-- C6: the base-region invariant holds after texture allocation and is
preserved by region allocation (for a proper sub-rectangle, the only use
the code makes of it), by invalidation and by upload. -/
theorem base_region_invariant (extent : Extent3D) (t : TextureRegions)
    (offset : Offset3D) (size : Extent3D) (valid : Bool)
    (hInv : BaseRegionInv t)
    (hsub : isProperSubRegion t.extent (⟨offset, size, false⟩ : Region) = true) :
    BaseRegionInv (AllocateTexture extent) ∧
      BaseRegionInv (AllocateTextureRegion t offset size) ∧
      BaseRegionInv (setRegionsValidity t valid) := by
  obtain ⟨hcount, hall⟩ := hInv
  have hnb : isBaseRegion t.extent (⟨offset, size, false⟩ : Region) = false := by
    unfold isProperSubRegion at hsub
    cases hb : isBaseRegion t.extent (⟨offset, size, false⟩ : Region)
    · rfl
    · rw [hb] at hsub
      simp at hsub
  refine ⟨⟨?_, ?_⟩, ⟨?_, ?_⟩, ⟨?_, ?_⟩⟩
  · simp only [AllocateTexture]
    rw [List.countP_cons, List.countP_nil]
    simp [isBaseRegion]
  · intro r hr
    simp only [AllocateTexture, List.mem_singleton] at hr
    left
    simp only [AllocateTexture]
    rw [hr]
    simp [isBaseRegion]
  · simp only [AllocateTextureRegion]
    rw [List.countP_append, List.countP_cons, List.countP_nil]
    rw [hnb]
    simpa using hcount
  · intro r hr
    simp only [AllocateTextureRegion] at hr ⊢
    rcases List.mem_append.mp hr with h1 | h2
    · exact hall r h1
    · simp only [List.mem_singleton] at h2
      right
      rw [h2]
      exact hsub
  · simp only [setRegionsValidity]
    rw [List.countP_map]
    have hfn : (isBaseRegion t.extent ∘ fun r : Region =>
        (⟨r.region_offset, r.region_size, valid⟩ : Region)) =
        isBaseRegion t.extent := by
      funext r
      exact isBaseRegion_ignores_validity t.extent r valid
    rw [hfn]
    exact hcount
  · intro r hr
    simp only [setRegionsValidity, List.mem_map] at hr ⊢
    obtain ⟨r0, hr0, hr0eq⟩ := hr
    rcases hall r0 hr0 with hb | hs
    · left
      rw [← hr0eq]
      rw [isBaseRegion_ignores_validity]
      exact hb
    · right
      rw [← hr0eq]
      unfold isProperSubRegion at hs ⊢
      rw [isBaseRegion_ignores_validity]
      exact hs

/-- Witness for C6: a 4×4×1 texture with its base region, adding the proper
sub-rectangle at offset (1,1,0) of size 2×2×1, and clearing validity. -/
theorem base_region_invariant_witness :
    BaseRegionInv (AllocateTexture ⟨4, 4, 1⟩) ∧
      BaseRegionInv (AllocateTextureRegion
        ⟨⟨4, 4, 1⟩, [⟨⟨0, 0, 0⟩, ⟨4, 4, 1⟩, true⟩]⟩ ⟨1, 1, 0⟩ ⟨2, 2, 1⟩) ∧
      BaseRegionInv (setRegionsValidity
        ⟨⟨4, 4, 1⟩, [⟨⟨0, 0, 0⟩, ⟨4, 4, 1⟩, true⟩]⟩ false) :=
  base_region_invariant ⟨4, 4, 1⟩
    ⟨⟨4, 4, 1⟩, [⟨⟨0, 0, 0⟩, ⟨4, 4, 1⟩, true⟩]⟩ ⟨1, 1, 0⟩ ⟨2, 2, 1⟩ false
    ⟨by decide, by decide⟩ (by decide)

/-! ### C10: `DemandRegion` with a null command buffer -/

/-- Resident-texture upload state for `DemandRegion`: the keyed texture map
with, per texture, whether its contents have already been uploaded to
graphics memory. -/
def UploadMap : Type := List (Nat × Bool)

/-- Modelled from the spec and the header's own contract for
`TextureCache::DemandRegion` (body in the missing `texture_cache.cc`): "If
command_buffer is null and the texture hasn't been uploaded to graphics
memory already, we will return null and bail."  With a command buffer the
call allocates on miss and uploads as needed.  The result is the demanded
region (named by the texture's hash key) and the texture map afterwards. -/
def DemandRegion (textures : UploadMap) (ti : TextureInfo)
    (command_buffer : Option Unit) : Option Nat × UploadMap :=
  let key := hashTextureInfo ti
  match List.lookup key textures with
  | some uploaded =>
      if uploaded then (some key, textures)
      else
        match command_buffer with
        | none => (none, textures)
        | some _ =>
            (some key, textures.map fun p => if p.1 = key then (p.1, true) else p)
  | none =>
      match command_buffer with
      | none => (none, textures)
      | some _ => (some key, (key, true) :: textures)

/-- C10: with a null command buffer `DemandRegion` never changes the cache
(no upload, no allocation), and it returns a region exactly when the
texture's contents were already uploaded to graphics memory; otherwise it
returns null and bails. -/
theorem DemandRegion_null_command_buffer (textures : UploadMap)
    (ti : TextureInfo) :
    (DemandRegion textures ti none).2 = textures ∧
      ((DemandRegion textures ti none).1.isSome = true ↔
        List.lookup (hashTextureInfo ti) textures = some true) := by
  cases hl : List.lookup (hashTextureInfo ti) textures with
  | none =>
    have hr : DemandRegion textures ti none = (none, textures) := by
      unfold DemandRegion
      simp only [hl]
    rw [hr]
    simp [hl]
  | some uploaded =>
    cases uploaded with
    | false =>
      have hr : DemandRegion textures ti none = (none, textures) := by
        unfold DemandRegion
        simp only [hl]
        rfl
      rw [hr]
      simp [hl]
    | true =>
      have hr : DemandRegion textures ti none =
          (some (hashTextureInfo ti), textures) := by
        unfold DemandRegion
        simp only [hl]
        rfl
      rw [hr]
      simp [hl]

/-! ### C8: the 32-slot `UpdateSetInfo` batch and the fetch-constant mask -/

/-- The transient `UpdateSetInfo` of the header: the 32-bit
`has_setup_fetch_mask` of fetch constants already resolved in the current
call, the `image_write_count`, and the accumulated descriptor writes of the
32-entry arrays (each represented by the fetch-constant index it
resolves). -/
structure UpdateSetInfo where
  has_setup_fetch_mask : Nat
  image_write_count : Nat
  image_writes : List Nat
deriving DecidableEq, Repr

/-- The batch at the start of a `PrepareTextureSet` call: empty mask, no
pending writes. -/
def emptyUpdateSetInfo : UpdateSetInfo := ⟨0, 0, []⟩

/-- Modelled from the spec: `TextureCache::SetupTextureBinding` (body in the
missing `texture_cache.cc`) skips a binding whose fetch constant is already
marked in `has_setup_fetch_mask`, and otherwise marks it, resolves the
binding and appends one image/sampler descriptor write at index
`image_write_count`. -/
def SetupTextureBinding (info : UpdateSetInfo) (b : Binding) : UpdateSetInfo :=
  if Nat.testBit info.has_setup_fetch_mask b.fetch_constant then info
  else
    ⟨info.has_setup_fetch_mask ||| 2 ^ b.fetch_constant,
      info.image_write_count + 1, info.image_writes ++ [b.fetch_constant]⟩

/-- Modelled from the spec: `TextureCache::SetupTextureBindings` processes a
binding list in order, sharing one `UpdateSetInfo` batch; the vertex- and
pixel-stage lists of one `PrepareTextureSet` call are processed with the
same batch. -/
def SetupTextureBindings (info : UpdateSetInfo) (bs : List Binding) :
    UpdateSetInfo :=
  bs.foldl SetupTextureBinding info

/-- Batch invariant: the mask is a 32-bit value, the write count equals the
number of accumulated writes, no fetch constant has two writes, and the
accumulated writes are exactly the fetch constants marked in the mask. -/
def UpdateSetInv (info : UpdateSetInfo) : Prop :=
  info.has_setup_fetch_mask < 2 ^ 32 ∧
    info.image_write_count = info.image_writes.length ∧
    info.image_writes.Nodup ∧
    ∀ i : Nat, i ∈ info.image_writes ↔
      Nat.testBit info.has_setup_fetch_mask i = true

theorem updateSetInv_empty : UpdateSetInv emptyUpdateSetInfo := by
  refine ⟨by norm_num [emptyUpdateSetInfo], rfl, List.nodup_nil, ?_⟩
  intro i
  simp [emptyUpdateSetInfo]

theorem updateSetInv_mem_lt (info : UpdateSetInfo) (hInv : UpdateSetInv info)
    (i : Nat) (hi : i ∈ info.image_writes) : i < 32 := by
  obtain ⟨hmask, _, _, hiff⟩ := hInv
  by_contra hge
  push_neg at hge
  have hbit := (hiff i).mp hi
  have hlt : info.has_setup_fetch_mask < 2 ^ i :=
    lt_of_lt_of_le hmask (Nat.pow_le_pow_right (by norm_num) hge)
  rw [Nat.testBit_lt_two_pow hlt] at hbit
  cases hbit

theorem updateSetInv_subset_range (info : UpdateSetInfo)
    (hInv : UpdateSetInv info) :
    info.image_writes.toFinset ⊆ Finset.range 32 := by
  intro i hi
  rw [List.mem_toFinset] at hi
  rw [Finset.mem_range]
  exact updateSetInv_mem_lt info hInv i hi

theorem updateSetInv_length_le (info : UpdateSetInfo)
    (hInv : UpdateSetInv info) : info.image_writes.length ≤ 32 := by
  have hcard := List.toFinset_card_of_nodup hInv.2.2.1
  have hsub := updateSetInv_subset_range info hInv
  have := Finset.card_le_card hsub
  rw [hcard, Finset.card_range] at this
  exact this

theorem updateSetInv_length_lt (info : UpdateSetInfo)
    (hInv : UpdateSetInv info) (i : Nat) (hi : i < 32)
    (hbit : Nat.testBit info.has_setup_fetch_mask i = false) :
    info.image_writes.length < 32 := by
  have hnmem : i ∉ info.image_writes := by
    intro hmem
    rw [(hInv.2.2.2 i).mp hmem] at hbit
    cases hbit
  have hnmem2 : i ∉ info.image_writes.toFinset := by
    rw [List.mem_toFinset]
    exact hnmem
  have hsub : insert i info.image_writes.toFinset ⊆ Finset.range 32 := by
    intro j hj
    rcases Finset.mem_insert.mp hj with hj1 | hj2
    · rw [Finset.mem_range, hj1]
      exact hi
    · exact updateSetInv_subset_range info hInv hj2
  have := Finset.card_le_card hsub
  rw [Finset.card_insert_of_not_mem hnmem2, Finset.card_range,
    List.toFinset_card_of_nodup hInv.2.2.1] at this
  omega

theorem setupTextureBinding_inv (info : UpdateSetInfo) (b : Binding)
    (hInv : UpdateSetInv info) (hfc : b.fetch_constant < 32) :
    UpdateSetInv (SetupTextureBinding info b) := by
  unfold SetupTextureBinding
  cases hbit : Nat.testBit info.has_setup_fetch_mask b.fetch_constant with
  | true =>
    rw [if_pos rfl]
    exact hInv
  | false =>
    rw [if_neg (by exact Bool.false_ne_true)]
    obtain ⟨hmask, hcount, hnodup, hiff⟩ := hInv
    have hnmem : b.fetch_constant ∉ info.image_writes := by
      intro hmem
      rw [(hiff _).mp hmem] at hbit
      cases hbit
    refine ⟨?_, ?_, ?_, ?_⟩
    · exact Nat.or_lt_two_pow hmask
        (Nat.pow_lt_pow_right (by norm_num) hfc)
    · simp [hcount]
    · rw [List.nodup_append]
      exact ⟨hnodup, List.nodup_singleton _, by
        intro a ha hb2
        rw [List.mem_singleton] at hb2
        rw [hb2] at ha
        exact hnmem ha⟩
    · intro i
      rw [List.mem_append, List.mem_singleton, Nat.testBit_or]
      by_cases hib : i = b.fetch_constant
      · subst hib
        simp [Nat.testBit_two_pow_self]
      · have h2 : Nat.testBit (2 ^ b.fetch_constant) i = false :=
          Nat.testBit_two_pow_of_ne (Ne.symm hib)
        rw [h2]
        simp [hib, hiff i]

theorem setupTextureBindings_inv (bs : List Binding) (info : UpdateSetInfo)
    (hInv : UpdateSetInv info) (hfc : ∀ b ∈ bs, b.fetch_constant < 32) :
    UpdateSetInv (SetupTextureBindings info bs) := by
  induction bs generalizing info with
  | nil => exact hInv
  | cons b rest ih =>
    have hstep : SetupTextureBindings info (b :: rest) =
        SetupTextureBindings (SetupTextureBinding info b) rest := rfl
    rw [hstep]
    exact ih _ (setupTextureBinding_inv info b hInv
        (hfc b (List.mem_cons_self b rest)))
      (fun b2 hb2 => hfc b2 (List.mem_cons_of_mem b hb2))

theorem setupTextureBinding_mask_mono (info : UpdateSetInfo) (b : Binding)
    (i : Nat) (h : Nat.testBit info.has_setup_fetch_mask i = true) :
    Nat.testBit (SetupTextureBinding info b).has_setup_fetch_mask i = true := by
  unfold SetupTextureBinding
  cases hbit : Nat.testBit info.has_setup_fetch_mask b.fetch_constant with
  | true =>
    rw [if_pos rfl]
    exact h
  | false =>
    rw [if_neg (by exact Bool.false_ne_true)]
    show Nat.testBit (info.has_setup_fetch_mask ||| 2 ^ b.fetch_constant) i = true
    rw [Nat.testBit_or, h]
    rfl

theorem setupTextureBindings_mask_mono (bs : List Binding)
    (info : UpdateSetInfo) (i : Nat)
    (h : Nat.testBit info.has_setup_fetch_mask i = true) :
    Nat.testBit (SetupTextureBindings info bs).has_setup_fetch_mask i = true := by
  induction bs generalizing info with
  | nil => exact h
  | cons b rest ih =>
    exact ih (SetupTextureBinding info b)
      (setupTextureBinding_mask_mono info b i h)

theorem setupTextureBinding_sets_bit (info : UpdateSetInfo) (b : Binding) :
    Nat.testBit (SetupTextureBinding info b).has_setup_fetch_mask
      b.fetch_constant = true := by
  unfold SetupTextureBinding
  cases hbit : Nat.testBit info.has_setup_fetch_mask b.fetch_constant with
  | true =>
    rw [if_pos rfl]
    exact hbit
  | false =>
    rw [if_neg (by exact Bool.false_ne_true)]
    show Nat.testBit (info.has_setup_fetch_mask ||| 2 ^ b.fetch_constant)
      b.fetch_constant = true
    rw [Nat.testBit_or, Nat.testBit_two_pow_self]
    simp

theorem setupTextureBindings_processed (bs : List Binding)
    (info : UpdateSetInfo) (b : Binding) (hb : b ∈ bs) :
    Nat.testBit (SetupTextureBindings info bs).has_setup_fetch_mask
      b.fetch_constant = true := by
  induction bs generalizing info with
  | nil => cases hb
  | cons b2 rest ih =>
    rcases List.mem_cons.mp hb with hb1 | hb2
    · subst hb1
      exact setupTextureBindings_mask_mono rest _ _
        (setupTextureBinding_sets_bit info b)
    · exact ih _ hb2

/-- C8: processing the vertex- then pixel-stage binding lists of one
`PrepareTextureSet` call through one shared `UpdateSetInfo` batch (all
fetch-constant indices below 32) accumulates at most 32 descriptor writes;
every referenced fetch constant — including one referenced by both stages —
gets exactly one resolved write; and whenever a write is appended, the index
used into the 32-entry arrays is below 32. -/
theorem update_set_info_capacity (vertex_bindings pixel_bindings : List Binding)
    (hfc : ∀ b ∈ vertex_bindings ++ pixel_bindings, b.fetch_constant < 32) :
    (SetupTextureBindings emptyUpdateSetInfo
        (vertex_bindings ++ pixel_bindings)).image_write_count ≤ 32 ∧
      (∀ b ∈ vertex_bindings ++ pixel_bindings,
        (SetupTextureBindings emptyUpdateSetInfo
            (vertex_bindings ++ pixel_bindings)).image_writes.count
          b.fetch_constant = 1) ∧
      (∀ pre b post,
        vertex_bindings ++ pixel_bindings = pre ++ b :: post →
        Nat.testBit (SetupTextureBindings emptyUpdateSetInfo
            pre).has_setup_fetch_mask b.fetch_constant = false →
        (SetupTextureBindings emptyUpdateSetInfo pre).image_write_count < 32) := by
  have hInvAll := setupTextureBindings_inv (vertex_bindings ++ pixel_bindings)
    emptyUpdateSetInfo updateSetInv_empty hfc
  refine ⟨?_, ?_, ?_⟩
  · rw [hInvAll.2.1]
    exact updateSetInv_length_le _ hInvAll
  · intro b hb
    have hbit := setupTextureBindings_processed _ emptyUpdateSetInfo b hb
    have hmem := (hInvAll.2.2.2 b.fetch_constant).mpr hbit
    exact List.count_eq_one_of_mem hInvAll.2.2.1 hmem
  · intro pre b post heq hbit
    have hpre : ∀ b2 ∈ pre, b2.fetch_constant < 32 := by
      intro b2 hb2
      exact hfc b2 (heq ▸ List.mem_append_left _ hb2)
    have hInvPre := setupTextureBindings_inv pre emptyUpdateSetInfo
      updateSetInv_empty hpre
    have hbfc : b.fetch_constant < 32 :=
      hfc b (heq ▸ List.mem_append_right _ (List.mem_cons_self b post))
    rw [hInvPre.2.1]
    exact updateSetInv_length_lt _ hInvPre b.fetch_constant hbfc hbit

/-- Witness for C8: the same fetch constant (index 1) referenced by both the
vertex and pixel binding lists. -/
theorem update_set_info_capacity_witness :
    (SetupTextureBindings emptyUpdateSetInfo
        ([⟨1, 7, 16, 16, 0⟩] ++ [⟨1, 7, 16, 16, 0⟩])).image_write_count ≤ 32 ∧
      (∀ b ∈ ([⟨1, 7, 16, 16, 0⟩] : List Binding) ++ [⟨1, 7, 16, 16, 0⟩],
        (SetupTextureBindings emptyUpdateSetInfo
            ([⟨1, 7, 16, 16, 0⟩] ++ [⟨1, 7, 16, 16, 0⟩])).image_writes.count
          b.fetch_constant = 1) ∧
      (∀ pre b post,
        ([⟨1, 7, 16, 16, 0⟩] : List Binding) ++ [⟨1, 7, 16, 16, 0⟩] =
          pre ++ b :: post →
        Nat.testBit (SetupTextureBindings emptyUpdateSetInfo
            pre).has_setup_fetch_mask b.fetch_constant = false →
        (SetupTextureBindings emptyUpdateSetInfo pre).image_write_count < 32) :=
  update_set_info_capacity [⟨1, 7, 16, 16, 0⟩] [⟨1, 7, 16, 16, 0⟩] (by decide)

end XeniaTextureCache
